import Mathlib

/-!
# Resource reconciliation of `worker/appm/f/function.go`

A shallow embedding of the reconciliation functions of rainbond's worker
(`ApplyOne`, `ensureService`, `persistUpdate`, `ensureIngress`, `ensureSecret`,
`EnsureEndpoints`, `EnsureService`, `UpgradeIngress`, `UpgradeSecrets`) and the
properties of them that the design document states.  `EnsureHPA` is not part
of any of these properties and is left out.

Conventions of the embedding.

* The Kubernetes client is external.  A `World` fixes, for every `k`, what the
  `k`-th store request of a run (counted from `0`) returns: its error and the
  object that comes with it.  Quantifying over all worlds covers every behaviour
  of the store, since the functions are sequential and deterministic.
* A function returns its Go result together with the events it caused, in
  order (`Log`).  An event is a store request with the error it returned, a
  `time.Sleep`, an invocation of the injected `handleErr` callback, or a call
  of a setter of the application model.  `logrus` output is not modelled.
  The entry points `ApplyOne`, `UpgradeIngress` and `UpgradeSecrets` start at
  request `0`; the other functions, which the entry points call in sequence,
  take the index `k` of their first request.
* Go pointers to objects are modelled by the objects themselves: list entries
  are non-nil and pairwise unaliased (a nil entry makes the Go code fail with a
  nil dereference before any request is made for it).
* A Go `map` is an association list with unique keys; the order in which
  `range` visits it is a parameter.
-/

namespace Rainbond

/-! ## Errors -/

/-- Modelled from the spec: the error classification of the store's errors
(`k8s.io/apimachinery/pkg/api/errors`): every error has one reason. -/
inductive Reason
  | notFound
  | alreadyExists
  | conflict
  | forbidden
  | other
deriving DecidableEq, Repr

/-- A Go `error`: its classification and the text of `Error()`. -/
structure Err where
  reason : Reason
  msg : String
deriving DecidableEq, Repr

def IsNotFound (e : Err) : Bool := e.reason == Reason.notFound

def IsAlreadyExists (e : Err) : Bool := e.reason == Reason.alreadyExists

def IsConflict (e : Err) : Bool := e.reason == Reason.conflict

/-- The error built by `fmt.Errorf(text ++ "%v", err)`: a plain error (no store
reason) whose text ends with the text of `err`. -/
def Errorf (text : String) (err : Err) : Err :=
  { reason := Reason.other, msg := text ++ err.msg }

/-! ## Objects -/

/-- Go `map[string]string`; `none` is the nil map. -/
abbrev StrMap := Option (List (String × String))

/-- The two-valued map read `v, exist := m[key]`. -/
def StrMap.get? (m : StrMap) (key : String) : Option String :=
  match m with
  | none => none
  | some kv => kv.lookup key

/-- The one-valued map read `m[key]`: the zero value when the key is absent. -/
def StrMap.getD (m : StrMap) (key : String) : String :=
  (m.get? key).getD ""

structure ObjectMeta where
  Name : String := ""
  Namespace : String := ""
  UID : String := ""
  ResourceVersion : String := ""
  Labels : StrMap := none
  Annotations : StrMap := none
deriving DecidableEq, Repr

structure Namespace extends ObjectMeta
deriving DecidableEq, Repr

structure ServiceSpec where
  ClusterIP : String := ""
  Ports : List Nat := []
deriving DecidableEq, Repr

structure Service extends ObjectMeta where
  Spec : ServiceSpec := {}
  Status : String := ""
deriving DecidableEq, Repr

structure Secret extends ObjectMeta where
  Data : List (String × String) := []
deriving DecidableEq, Repr

structure EndpointSubset where
  Addresses : List String := []
  Ports : List Nat := []
deriving DecidableEq, Repr

structure Endpoints extends ObjectMeta where
  Subsets : List EndpointSubset := []
deriving DecidableEq, Repr

structure IngressRule where
  Host : String := ""
deriving DecidableEq, Repr

structure IngressTLS where
  SecretName : String := ""
deriving DecidableEq, Repr

structure IngressSpec where
  Rules : List IngressRule := []
  TLS : List IngressTLS := []
deriving DecidableEq, Repr

structure Ingress extends ObjectMeta where
  Spec : IngressSpec := {}
deriving DecidableEq, Repr

/-- Modelled from the spec: the application model `v1.AppService`, as far as
this file reads it: the tenant, the custom parameters, the desired lists
(`GetServices(true)`, `GetSecrets(true)`, `GetEndpoints(true)`,
`GetIngress(true)`) and the delete lists (`GetDelIngs()`, `GetDelSecrets()`,
`GetDelServices()`). -/
structure AppService where
  TenantID : String := ""
  ServiceID : String := ""
  CustomParams : StrMap := none
  tenant : Namespace := {}
  services : List Service := []
  secrets : List Secret := []
  endpoints : List Endpoints := []
  ingresses : List Ingress := []
  delIngs : List Ingress := []
  delSecrets : List Secret := []
  delServices : List Service := []

/-! ## The store and the event log -/

/-- A request to the store; the first argument of the requests on a namespaced
kind is the namespace of the client (`Services(ns)`, `Ingresses(ns)`, ...). -/
inductive Call
  | getNamespace (name : String)
  | createNamespace (ns : Namespace)
  | getService (ns name : String)
  | createService (ns : String) (s : Service)
  | updateStatusService (ns : String) (s : Service)
  | deleteService (ns name : String)
  | updateSecret (ns : String) (s : Secret)
  | createSecret (ns : String) (s : Secret)
  | deleteSecret (ns name : String)
  | getEndpoints (ns name : String)
  | createEndpoints (ns : String) (e : Endpoints)
  | updateEndpoints (ns : String) (e : Endpoints)
  | updateIngress (ns : String) (i : Ingress)
  | createIngress (ns : String) (i : Ingress)
  | deleteIngress (ns name : String)
deriving DecidableEq, Repr

inductive Event
  | request (c : Call) (result : Option Err)
  | sleep (d : Nat)
  | handleErr (msg : String) (err : Err)
  | setIngress (i : Ingress)
  | setSecret (s : Secret)
deriving DecidableEq, Repr

abbrev Log := List Event

/-- The store requests of a log, in order. -/
def requests : Log → List Call
  | [] => []
  | Event.request c _ :: rest => c :: requests rest
  | _ :: rest => requests rest

/-- What the store answers to the `k`-th request of a run. -/
structure World where
  err : Nat → Option Err
  service : Nat → Service
  endpoints : Nat → Endpoints
  ingress : Nat → Ingress
  secret : Nat → Secret

/-- The functions of libraries outside the repository that the code calls. -/
structure Ext where
  /-- The function `apiequality.Semantic.DeepEqual` on two `Subsets`. -/
  deepEqualSubsets : List EndpointSubset → List EndpointSubset → Bool
  /-- The function `apiequality.Semantic.DeepEqual` on two label maps. -/
  deepEqualLabels : StrMap → StrMap → Bool
  /-- The function `parser.GetAnnotationWithPrefix`. -/
  annotationKey : String → String

/-- Run `f` on every entry in turn; each run starts at the request index the
previous ones have reached. -/
def forEach {α : Type} (f : α → Nat → Log) : List α → Nat → Log
  | [], _ => []
  | x :: rest, k =>
    let a := f x k
    a ++ forEach f rest (k + (requests a).length)

/-! ## `persistUpdate`, `ensureService` -/

def clientRetryCount : Nat := 5

/-- One second in the unit of `time.Duration`. -/
def Second : Nat := 1000000000

def clientRetryInterval : Nat := 5 * Second

/-- The loop of `persistUpdate` with `fuel` iterations left
(`fuel = clientRetryCount - i`); `err` is the variable `err`. -/
def persistUpdate.loop (w : World) (service : Service) :
    Nat → Nat → Option Err → Option Err × Log
  | 0, _, err => (err, [])
  | fuel + 1, k, _ =>
    let err := w.err k
    let req := Event.request (Call.updateStatusService service.Namespace service) err
    match err with
    | none => (none, [req])
    | some e =>
      if IsNotFound e then (none, [req])
      else if IsConflict e then
        (some (Errorf ("not persisting update to service '" ++ service.Namespace ++ "/"
          ++ service.Name ++ "' that has been changed since we received it: ") e), [req])
      else
        let r := persistUpdate.loop w service fuel (k + 1) (some e)
        (r.1, req :: Event.sleep clientRetryInterval :: r.2)

def persistUpdate (w : World) (service : Service) (k : Nat) : Option Err × Log :=
  persistUpdate.loop w service clientRetryCount k none

def ensureService (w : World) (new : Service) (k : Nat) : Option Err × Log :=
  let err := w.err k
  let get := Event.request (Call.getService new.Namespace new.Name) err
  match err with
  | some e =>
    if IsNotFound e then
      (none, [get, Event.request (Call.createService new.Namespace new) (w.err (k + 1))])
    else (some e, [get])
  | none =>
    let old := w.service k
    let updateService : Service :=
      { old with Spec := new.Spec, Labels := new.Labels, Annotations := new.Annotations }
    let r := persistUpdate w updateService (k + 1)
    (r.1, get :: r.2)

def EnsureService (w : World) (new : Service) (k : Nat) : Option Err × Log :=
  ensureService w new k

/-! ## `ensureIngress`, `ensureSecret`, `EnsureEndpoints` -/

def ensureIngress (w : World) (ingress : Ingress) (k : Nat) : Log :=
  let err := w.err k
  let update := Event.request (Call.updateIngress ingress.Namespace ingress) err
  match err with
  | some e =>
    if IsNotFound e then
      [update, Event.request (Call.createIngress ingress.Namespace ingress) (w.err (k + 1))]
    else [update]
  | none => [update]

def ensureSecret (w : World) (secret : Secret) (k : Nat) : Log :=
  let err := w.err k
  let update := Event.request (Call.updateSecret secret.Namespace secret) err
  match err with
  | some e =>
    if IsNotFound e then
      [update, Event.request (Call.createSecret secret.Namespace secret) (w.err (k + 1))]
    else [update]
  | none => [update]

def EnsureEndpoints (x : Ext) (w : World) (ep : Endpoints) (k : Nat) : Option Err × Log :=
  let err := w.err k
  let get := Event.request (Call.getEndpoints ep.Namespace ep.Name) err
  -- the fetch: the object to go on with, or the error to return
  let fetched : Except Err Endpoints :=
    match err with
    | none => Except.ok (w.endpoints k)
    | some e =>
      if IsNotFound e then Except.ok { Name := ep.Name, Labels := ep.Labels }
      else Except.error e
  match fetched with
  | Except.error e => (some e, [get])
  | Except.ok currentEndpoints =>
    let createEndpoints : Bool := currentEndpoints.ResourceVersion.length == 0
    if !createEndpoints
        && x.deepEqualSubsets currentEndpoints.Subsets ep.Subsets
        && x.deepEqualLabels currentEndpoints.Labels ep.Labels then
      (none, [get])
    else
      let newEndpoints : Endpoints :=
        { currentEndpoints with Subsets := ep.Subsets, Labels := ep.Labels }
      let newEndpoints : Endpoints :=
        if newEndpoints.Annotations.isNone then { newEndpoints with Annotations := some [] }
        else newEndpoints
      let err := w.err (k + 1)
      let write :=
        if createEndpoints then Call.createEndpoints ep.Namespace newEndpoints
        else Call.updateEndpoints ep.Namespace newEndpoints
      -- `if err != nil { ...; return err }; return nil`, where `...` only logs
      -- (at a lower level when a create is forbidden)
      (err, [get, Event.request write err])

/-! ## `ApplyOne` -/

/-- Lines 46 to 57 of `ApplyOne`: the namespace get-or-create.  The result is
the error `ApplyOne` returns at once, or `none` when it goes on. -/
def ApplyOne.namespaceStep (w : World) (app : AppService) : Option Err × Log :=
  let get := Event.request (Call.getNamespace app.TenantID) (w.err 0)
  match w.err 0 with
  | none => (none, [get])
  | some e =>
    -- the block `if k8sErrors.IsNotFound(err)`: it returns (`Except.error`), or
    -- leaves a value in `err` (`Except.ok`)
    let block : Except (Option Err × Log) (Option Err × Log) :=
      if IsNotFound e then
        let create := Event.request (Call.createNamespace app.tenant) (w.err 1)
        match w.err 1 with
        | some e1 =>
          if !IsAlreadyExists e1 then
            Except.error (some (Errorf "error creating namespace: " e1), [get, create])
          else Except.ok (some e1, [get, create])
        | none => Except.ok (none, [get, create])
      else Except.ok (some e, [get])
    match block with
    | Except.error r => r
    | Except.ok (some e2, log) => (some (Errorf "error checking namespace: " e2), log)
    | Except.ok (none, log) => (none, log)

/-- The loop of lines 61 to 72: the ingresses of one domain, each after the
secret its first TLS entry names. -/
def ApplyOne.domain (w : World) (app : AppService) (domain : String) (k : Nat) : Log :=
  forEach (fun (ing : Ingress) k =>
    match ing.Spec.Rules with
    | rule0 :: _ =>
      if rule0.Host == domain then
        let a : Log :=
          match ing.Spec.TLS with
          | tls0 :: _ =>
            forEach (fun (secret : Secret) k =>
              if tls0.SecretName == secret.Name then ensureSecret w secret k else []) app.secrets k
          | [] => []
        a ++ ensureIngress w ing (k + (requests a).length)
      else []
    | [] => []) app.ingresses k

/-- The loop of lines 76 to 83: the ingresses of one TCP address. -/
def ApplyOne.tcpAddress (x : Ext) (w : World) (app : AppService) (domain : String)
    (k : Nat) : Log :=
  forEach (fun (ing : Ingress) k =>
    match ing.Annotations.get? (x.annotationKey "l4-host") with
    | some host =>
      let address := host ++ ":" ++ ing.Annotations.getD (x.annotationKey "l4-port")
      if address == domain then ensureIngress w ing k else []
    | none => []) app.ingresses k

/-- The `else` branch of lines 85 to 104: services, secrets, endpoints and
ingresses. -/
def ApplyOne.full (x : Ext) (w : World) (app : AppService) (k : Nat) : Log :=
  let a := forEach (fun service k => (ensureService w service k).2) app.services k
  let k := k + (requests a).length
  let b := forEach (fun secret k => ensureSecret w secret k) app.secrets k
  let k := k + (requests b).length
  let c := forEach (fun ep k => (EnsureEndpoints x w ep k).2) app.endpoints k
  let k := k + (requests c).length
  let d := forEach (fun ing k => ensureIngress w ing k) app.ingresses k
  a ++ b ++ c ++ d

/-- Lines 58 to 104 of `ApplyOne`. -/
def ApplyOne.reconcile (x : Ext) (w : World) (app : AppService) (k : Nat) : Log :=
  match app.CustomParams with
  | some _ =>
    let a : Log :=
      match StrMap.get? app.CustomParams "domain" with
      | some domain => ApplyOne.domain w app domain k
      | none => []
    let k := k + (requests a).length
    let b : Log :=
      match StrMap.get? app.CustomParams "tcp-address" with
      | some domain => ApplyOne.tcpAddress x w app domain k
      | none => []
    a ++ b
  | none => ApplyOne.full x w app k

/-- Lines 105 to 130 of `ApplyOne`: the three delete lists. -/
def ApplyOne.sweep (w : World) (app : AppService) (k : Nat) : Log :=
  let a := forEach (fun (ing : Ingress) k =>
    [Event.request (Call.deleteIngress ing.Namespace ing.Name) (w.err k)]) app.delIngs k
  let k := k + (requests a).length
  let b := forEach (fun (secret : Secret) k =>
    [Event.request (Call.deleteSecret secret.Namespace secret.Name) (w.err k)]) app.delSecrets k
  let k := k + (requests b).length
  let c := forEach (fun (svc : Service) k =>
    [Event.request (Call.deleteService svc.Namespace svc.Name) (w.err k)]) app.delServices k
  a ++ b ++ c

def ApplyOne (x : Ext) (w : World) (app : AppService) : Option Err × Log :=
  match ApplyOne.namespaceStep w app with
  | (some e, log) => (some e, log)
  | (none, log) =>
    let a := ApplyOne.reconcile x w app (requests log).length
    let b := ApplyOne.sweep w app ((requests log).length + (requests a).length)
    (none, log ++ a ++ b)

/-! ## `UpgradeIngress`, `UpgradeSecrets` -/

/-- A Go `map[string]*T`: an association list with unique keys. -/
abbrev GoMap (α : Type) := List (String × α)

/-- The assignment `m[key] = v`. -/
def GoMap.insert {α : Type} (m : GoMap α) (key : String) (v : α) : GoMap α :=
  if m.any (fun kv => kv.1 == key) then
    m.map (fun kv => if kv.1 == key then (key, v) else kv)
  else m ++ [(key, v)]

/-- The builtin `delete(m, key)`. -/
def GoMap.delete {α : Type} (m : GoMap α) (key : String) : GoMap α :=
  m.filter (fun kv => kv.1 != key)

/-- What distinguishes `UpgradeIngress` from `UpgradeSecrets`: the kind of the
objects, the client the requests go to, the setter of the application model
and the texts of the messages. -/
structure Kind (α : Type) where
  name : α → String
  ns : α → String
  uid : α → String
  rv : α → String
  /-- The assignments `n.UID = uid; n.ResourceVersion = rv`. -/
  setIdentity : α → String → String → α
  update : String → α → Call
  create : String → α → Call
  delete : String → String → Call
  /-- The object a request returns. -/
  returned : World → Nat → α
  /-- The setter `as.SetIngress`, `as.SetSecret`. -/
  set : α → Event
  updateFormat : String
  createFormat : String
  deleteFormat : String

def Kind.ingress : Kind Ingress where
  name := fun i => i.Name
  ns := fun i => i.Namespace
  uid := fun i => i.UID
  rv := fun i => i.ResourceVersion
  setIdentity := fun n uid rv => { n with UID := uid, ResourceVersion := rv }
  update := Call.updateIngress
  create := Call.createIngress
  delete := Call.deleteIngress
  returned := fun w k => w.ingress k
  set := Event.setIngress
  updateFormat := "error updating ingress: %+v: err: %v"
  createFormat := "error creating ingress: %+v: err: %v"
  deleteFormat := "error deleting ingress: %+v: err: %v"

def Kind.secret : Kind Secret where
  name := fun s => s.Name
  ns := fun s => s.Namespace
  uid := fun s => s.UID
  rv := fun s => s.ResourceVersion
  setIdentity := fun n uid rv => { n with UID := uid, ResourceVersion := rv }
  update := Call.updateSecret
  create := Call.createSecret
  delete := Call.deleteSecret
  returned := fun w k => w.secret k
  set := Event.setSecret
  updateFormat := "error updating secret: %+v: err: %v"
  createFormat := "error creating secret: %+v: err: %v"
  deleteFormat := "error deleting secret: %+v: err: %v"

/-- The parameters of a run of `UpgradeIngress` or `UpgradeSecrets` besides the
two lists: the store, the injected `handleErr`, `fmt.Sprintf` on a format, an
object and an error, and the order in which `range` visits a map. -/
structure Upgrade (α : Type) where
  w : World
  handleErr : String → Err → Option Err
  sprintf : String → α → Err → String
  range : GoMap α → GoMap α

/-- The first loop: `oldMap[item.Name] = old[i]`. -/
def upgrade.oldMap {α : Type} (K : Kind α) (old : List α) : GoMap α :=
  old.foldl (fun m item => m.insert (K.name item) item) []

/-- The last loop, over the entries of `oldMap` in the order of `range`. -/
def upgrade.deleteLoop {α : Type} (K : Kind α) (u : Upgrade α) :
    List (String × α) → Nat → Option Err × Log
  | [], _ => (none, [])
  | (_, ing) :: rest, k =>
    let err := u.w.err k
    let req := Event.request (K.delete (K.ns ing) (K.name ing)) err
    match err with
    | some e =>
      let msg := u.sprintf K.deleteFormat ing e
      match u.handleErr msg e with
      | some abort => (some abort, [req, Event.handleErr msg e])
      | none =>
        let r := upgrade.deleteLoop K u rest (k + 1)
        (r.1, req :: Event.handleErr msg e :: r.2)
    | none =>
      let r := upgrade.deleteLoop K u rest (k + 1)
      (r.1, req :: r.2)

/-- The loop over `new`, followed by the last loop. -/
def upgrade.newLoop {α : Type} (K : Kind α) (u : Upgrade α) :
    GoMap α → List α → Nat → Option Err × Log
  | oldMap, [], k => upgrade.deleteLoop K u (u.range oldMap) k
  | oldMap, n :: rest, k =>
    match oldMap.lookup (K.name n) with
    | some o =>
      let n := K.setIdentity n (K.uid o) (K.rv o)
      let ing := K.returned u.w k
      let err := u.w.err k
      let req := Event.request (K.update (K.ns n) n) err
      match err with
      | some e =>
        let msg := u.sprintf K.updateFormat ing e
        match u.handleErr msg e with
        | some abort => (some abort, [req, Event.handleErr msg e])
        | none =>
          let r := upgrade.newLoop K u oldMap rest (k + 1)
          (r.1, req :: Event.handleErr msg e :: r.2)
      | none =>
        let r := upgrade.newLoop K u (oldMap.delete (K.name o)) rest (k + 1)
        (r.1, req :: K.set ing :: r.2)
    | none =>
      let ing := K.returned u.w k
      let err := u.w.err k
      let req := Event.request (K.create (K.ns n) n) err
      match err with
      | some e =>
        let msg := u.sprintf K.createFormat ing e
        match u.handleErr msg e with
        | some abort => (some abort, [req, Event.handleErr msg e])
        | none =>
          let r := upgrade.newLoop K u oldMap rest (k + 1)
          (r.1, req :: Event.handleErr msg e :: r.2)
      | none =>
        let r := upgrade.newLoop K u oldMap rest (k + 1)
        (r.1, req :: K.set ing :: r.2)

/-- The body that `UpgradeIngress` and `UpgradeSecrets` share. -/
def upgrade {α : Type} (K : Kind α) (u : Upgrade α) (old new : List α) : Option Err × Log :=
  upgrade.newLoop K u (upgrade.oldMap K old) new 0

def UpgradeIngress (u : Upgrade Ingress) (old new : List Ingress) : Option Err × Log :=
  upgrade Kind.ingress u old new

def UpgradeSecrets (u : Upgrade Secret) (old new : List Secret) : Option Err × Log :=
  upgrade Kind.secret u old new

/-! ## Vocabulary of the properties -/

/-- An error after which `persistUpdate` tries again: neither NotFound nor
Conflict. -/
def Transient (r : Option Err) : Prop :=
  ∃ e, r = some e ∧ IsNotFound e = false ∧ IsConflict e = false

/-- The events of `j` failed attempts of `persistUpdate` from request `k` on. -/
def persistUpdate.failed (w : World) (service : Service) : Nat → Nat → Log
  | 0, _ => []
  | j + 1, k =>
    Event.request (Call.updateStatusService service.Namespace service) (w.err k)
      :: Event.sleep clientRetryInterval :: persistUpdate.failed w service j (k + 1)

/-- The object that a successful write of endpoints stores. -/
def written : Event → Option Endpoints
  | Event.request (Call.createEndpoints _ e) none => some e
  | Event.request (Call.updateEndpoints _ e) none => some e
  | _ => none

/-- The request that opens the reconciliation of one desired object: the fetch
of `ensureService` and `EnsureEndpoints`, the update of `ensureSecret` and
`ensureIngress`. -/
def opening : Event → Option Call
  | Event.request (Call.getService ns name) _ => some (Call.getService ns name)
  | Event.request (Call.updateSecret ns s) _ => some (Call.updateSecret ns s)
  | Event.request (Call.getEndpoints ns name) _ => some (Call.getEndpoints ns name)
  | Event.request (Call.updateIngress ns i) _ => some (Call.updateIngress ns i)
  | _ => none

/-- What the loop over `new` asks of the store for the entry `n`, given the
map of the old entries. -/
def upgrade.classify {α : Type} (K : Kind α) (m : GoMap α) (n : α) : Call :=
  match List.lookup (K.name n) m with
  | some o =>
    K.update (K.ns (K.setIdentity n (K.uid o) (K.rv o))) (K.setIdentity n (K.uid o) (K.rv o))
  | none => K.create (K.ns n) n

/-- The abort policy on the outcome `r` of a run: every failed request is
followed at once by the invocation of `handleErr` on its error; a non-nil
answer of `handleErr` is the result of the run and ends the log; and a non-nil
result is such an answer. -/
def AbortPolicy (handleErr : String → Err → Option Err) (r : Option Err × Log) : Prop :=
  (∀ i c err, r.2[i]? = some (Event.request c (some err)) →
    ∃ msg, r.2[i + 1]? = some (Event.handleErr msg err)
      ∧ ∀ e, handleErr msg err = some e → r.1 = some e ∧ r.2.length = i + 2)
  ∧ (∀ e, r.1 = some e →
    ∃ i c err msg, r.2[i]? = some (Event.request c (some err))
      ∧ r.2[i + 1]? = some (Event.handleErr msg err) ∧ handleErr msg err = some e)

/-! ## Concrete runs -/

def boom : Err := { reason := Reason.other, msg := "boom" }

def notFound : Err := { reason := Reason.notFound, msg := "not found" }

def alreadyExists : Err := { reason := Reason.alreadyExists, msg := "already exists" }

def conflict : Err := { reason := Reason.conflict, msg := "conflict" }

def ext : Ext where
  deepEqualSubsets := fun a b => a == b
  deepEqualLabels := fun a b => a == b
  annotationKey := fun suffix => "nginx.ingress.kubernetes.io/" ++ suffix

/-- The store in which every request succeeds. -/
def okWorld : World where
  err := fun _ => none
  service := fun _ => {}
  endpoints := fun _ => {}
  ingress := fun _ => {}
  secret := fun _ => {}

/-- The store in which every request fails with `boom`. -/
def boomWorld : World := { okWorld with err := fun _ => some boom }

/-- The store whose first request fails with `boom`. -/
def failFirstWorld : World :=
  { okWorld with err := fun k => if k = 0 then some boom else none }

/-- The store whose first request succeeds and whose later ones all fail. -/
def laterFailWorld : World :=
  { okWorld with err := fun k => if k = 0 then none else some boom }

/-- The store whose first request fails with `boom` and whose second one meets
a conflict. -/
def conflictWorld : World :=
  { okWorld with err := fun k => if k = 0 then some boom else some conflict }

/-- The store in which the object fetched first is absent and the create that
follows loses the race against another actor. -/
def raceWorld : World :=
  { okWorld with err := fun k => if k = 0 then some notFound else some alreadyExists }

def web : Service := { Name := "web", Namespace := "t" }

def webEndpoints : Endpoints :=
  { Name := "web", Namespace := "t", Labels := some [("app", "web")],
    Subsets := [{ Addresses := ["10.0.0.1"], Ports := [80] }] }

/-- The store that holds `webEndpoints` under version `7`. -/
def gateWorld : World :=
  { okWorld with endpoints := fun _ => { webEndpoints with ResourceVersion := "7" } }

def ingA : Ingress := { Name := "a", Namespace := "t", UID := "uid-a", ResourceVersion := "1" }

def ingB : Ingress := { Name := "b", Namespace := "t", UID := "uid-b", ResourceVersion := "2" }

def newA : Ingress := { Name := "a", Namespace := "t" }

def newB : Ingress := { Name := "b", Namespace := "t" }

def newC : Ingress := { Name := "c", Namespace := "t" }

def secA : Secret := { Name := "a", Namespace := "t", UID := "uid-a", ResourceVersion := "1" }

def newSecA : Secret := { Name := "a", Namespace := "t" }

/-- Every request succeeds; `range` visits a map in the order of insertion. -/
def okRun : Upgrade Ingress where
  w := okWorld
  handleErr := fun _ _ => none
  sprintf := fun format _ err => format ++ err.msg
  range := id

/-- The first request fails and `handleErr` answers nil: go on. -/
def skipRun : Upgrade Ingress := { okRun with w := failFirstWorld }

/-- The same run on secrets. -/
def skipSecretRun : Upgrade Secret where
  w := failFirstWorld
  handleErr := fun _ _ => none
  sprintf := fun format _ err => format ++ err.msg
  range := id

/-- The first request fails and `handleErr` answers with the error: abort. -/
def abortRun : Upgrade Ingress :=
  { okRun with w := failFirstWorld, handleErr := fun _ err => some err }

/-- An application with one desired service and custom parameters that name
neither a domain nor a TCP address. -/
def paramsApp : AppService :=
  { TenantID := "t", CustomParams := some [("version", "v2")], services := [web] }

/-- The same application without custom parameters. -/
def plainApp : AppService := { TenantID := "t", services := [web] }

/-- An application with a desired service and a service on the delete list. -/
def sweepApp : AppService :=
  { TenantID := "t", services := [web], delServices := [{ Name := "gone", Namespace := "t" }] }

/-! ## Lemmas on logs -/

theorem requests_append (a b : Log) : requests (a ++ b) = requests a ++ requests b := by
  induction a with
  | nil => rfl
  | cons e a ih => cases e <;> simp [requests, ih]

theorem requests_set {α : Type} (K : Kind α) (hset : ∀ a c r, K.set a ≠ Event.request c r)
    (a : α) (log : Log) : requests (K.set a :: log) = requests log := by
  have := hset a
  cases hs : K.set a <;> simp_all [requests]

/-! ## `persistUpdate` -/

theorem persistUpdate.requests_failed (w : World) (service : Service) (j k : Nat) :
    requests (persistUpdate.failed w service j k)
      = List.replicate j (Call.updateStatusService service.Namespace service) := by
  induction j generalizing k with
  | zero => rfl
  | succ j ih => simp [persistUpdate.failed, requests, ih, List.replicate_succ]

/-- After `j` attempts that fail with transient errors the loop stands where a
run with `j` iterations less starts, `err` holding the last error. -/
theorem persistUpdate.loop_failed (w : World) (service : Service) (j : Nat) :
    ∀ (fuel k : Nat) (err0 : Option Err),
      (∀ i, i < j → Transient (w.err (k + i))) →
      persistUpdate.loop w service (j + fuel) k err0
        = ((persistUpdate.loop w service fuel (k + j)
              (if j = 0 then err0 else w.err (k + j - 1))).1,
            persistUpdate.failed w service j k
              ++ (persistUpdate.loop w service fuel (k + j)
                (if j = 0 then err0 else w.err (k + j - 1))).2) := by
  induction j with
  | zero => intro fuel k err0 _; simp [persistUpdate.failed]
  | succ j ih =>
    intro fuel k err0 h
    obtain ⟨e, he, hnf, hc⟩ := h 0 (Nat.succ_pos j)
    simp only [Nat.add_zero] at he
    have hrest : ∀ i, i < j → Transient (w.err (k + 1 + i)) := by
      intro i hi
      have := h (i + 1) (Nat.succ_lt_succ hi)
      rwa [show k + (i + 1) = k + 1 + i by omega] at this
    have hstep : j + 1 + fuel = (j + fuel) + 1 := by omega
    rw [hstep, persistUpdate.loop]
    simp only [he, hnf, hc, Bool.false_eq_true, if_false]
    rw [ih fuel (k + 1) (some e) hrest]
    have hk : k + 1 + j = k + (j + 1) := by omega
    by_cases hj : j = 0
    · subst hj
      simp [persistUpdate.failed, he]
    · have hk2 : k + 1 + j - 1 = k + (j + 1) - 1 := by omega
      simp [hj, hk, hk2, persistUpdate.failed, he]

/-- Claim C2, the retry cap of `persistUpdate`: when the five update attempts
(requests `k` to `k + 4`) all fail with an error that is neither NotFound nor
Conflict, the run consists of exactly five `UpdateStatus` requests, each
followed by a sleep of `clientRetryInterval`, and it returns the error of the
fifth attempt. -/
theorem persistUpdate_retry_cap (w : World) (service : Service) (k : Nat)
    (h : ∀ i, i < 5 → Transient (w.err (k + i))) :
    persistUpdate w service k
      = (w.err (k + 4),
          [Event.request (Call.updateStatusService service.Namespace service) (w.err k),
           Event.sleep clientRetryInterval,
           Event.request (Call.updateStatusService service.Namespace service) (w.err (k + 1)),
           Event.sleep clientRetryInterval,
           Event.request (Call.updateStatusService service.Namespace service) (w.err (k + 2)),
           Event.sleep clientRetryInterval,
           Event.request (Call.updateStatusService service.Namespace service) (w.err (k + 3)),
           Event.sleep clientRetryInterval,
           Event.request (Call.updateStatusService service.Namespace service) (w.err (k + 4)),
           Event.sleep clientRetryInterval]) := by
  have := persistUpdate.loop_failed w service 5 0 k none h
  simpa [persistUpdate, clientRetryCount, persistUpdate.loop, persistUpdate.failed] using this

theorem persistUpdate_retry_cap_witness :
    (∀ i, i < 5 → Transient (boomWorld.err (0 + i)))
    ∧ (persistUpdate boomWorld web 0).1 = some boom
    ∧ requests (persistUpdate boomWorld web 0).2
        = List.replicate 5 (Call.updateStatusService "t" web) := by
  have h : ∀ i, i < 5 → Transient (boomWorld.err (0 + i)) :=
    fun _ _ => ⟨boom, rfl, rfl, rfl⟩
  refine ⟨h, ?_, ?_⟩
  · rw [persistUpdate_retry_cap boomWorld web 0 h]
    rfl
  · rfl

/-- Claim C3, the conflict short-circuit of `persistUpdate`: for `n` between 1
and 5, when the first `n - 1` attempts fail with transient errors and attempt
`n` meets the Conflict error `c`, exactly `n` update requests are made, the
last event of the run is the request that met `c`, and the result is the
non-nil error whose text ends with the text of `c`. -/
theorem persistUpdate_conflict (w : World) (service : Service) (k n : Nat) (c : Err)
    (hn : 1 ≤ n ∧ n ≤ 5)
    (h : ∀ i, i < n - 1 → Transient (w.err (k + i)))
    (hc : w.err (k + (n - 1)) = some c) (hconf : IsConflict c = true) :
    (persistUpdate w service k).1
        = some (Errorf ("not persisting update to service '" ++ service.Namespace ++ "/"
            ++ service.Name ++ "' that has been changed since we received it: ") c)
      ∧ requests (persistUpdate w service k).2
        = List.replicate n (Call.updateStatusService service.Namespace service)
      ∧ (persistUpdate w service k).2.getLast?
        = some (Event.request (Call.updateStatusService service.Namespace service) (some c)) := by
  have hnf : IsNotFound c = false := by
    simp only [IsConflict, IsNotFound] at *
    cases hr : c.reason <;> simp_all
  have hfuel : clientRetryCount = (n - 1) + ((5 - n) + 1) := by
    simp only [clientRetryCount]; omega
  have := persistUpdate.loop_failed w service (n - 1) ((5 - n) + 1) k none h
  rw [persistUpdate, hfuel, this]
  simp only [persistUpdate.loop, hc, hnf, hconf, Bool.false_eq_true, if_false, if_true]
  refine ⟨trivial, ?_, ?_⟩
  · obtain ⟨m, rfl⟩ : ∃ m, n = m + 1 := ⟨n - 1, by omega⟩
    simp [requests_append, persistUpdate.requests_failed, requests, List.replicate_succ']
  · simp

theorem persistUpdate_conflict_witness :
    (persistUpdate conflictWorld web 0).1
        = some (Errorf ("not persisting update to service '" ++ web.Namespace ++ "/"
            ++ web.Name ++ "' that has been changed since we received it: ") conflict)
      ∧ requests (persistUpdate conflictWorld web 0).2
        = List.replicate 2 (Call.updateStatusService web.Namespace web)
      ∧ (persistUpdate conflictWorld web 0).2.getLast?
        = some (Event.request (Call.updateStatusService web.Namespace web) (some conflict)) :=
  persistUpdate_conflict conflictWorld web 0 2 conflict (by decide)
    (fun i hi => by
      have hi0 : i = 0 := by omega
      subst hi0
      exact ⟨boom, rfl, rfl, rfl⟩)
    rfl rfl

/-! ## `EnsureEndpoints`, `EnsureService` -/

theorem EnsureEndpoints_gate (x : Ext) (w : World) (ep : Endpoints) (k : Nat)
    (hget : w.err k = none) (hver : (w.endpoints k).ResourceVersion ≠ "")
    (hs : x.deepEqualSubsets (w.endpoints k).Subsets ep.Subsets = true)
    (hl : x.deepEqualLabels (w.endpoints k).Labels ep.Labels = true) :
    EnsureEndpoints x w ep k
      = (none, [Event.request (Call.getEndpoints ep.Namespace ep.Name) none]) := by
  have hlen : ((w.endpoints k).ResourceVersion.length == 0) = false := by
    simp only [beq_eq_false_iff_ne, ne_eq]
    intro h0
    apply hver
    apply String.ext
    exact List.length_eq_zero.mp h0
  simp [EnsureEndpoints, hget, hlen, hs, hl]

/-- Every object that `EnsureEndpoints` writes carries the desired subsets and
labels. -/
theorem EnsureEndpoints_written (x : Ext) (w : World) (ep : Endpoints) (k : Nat)
    (obj : Endpoints) (h : obj ∈ (EnsureEndpoints x w ep k).2.filterMap written) :
    obj.Subsets = ep.Subsets ∧ obj.Labels = ep.Labels := by
  cases hk : w.err k with
  | none =>
    simp only [EnsureEndpoints, hk] at h
    split_ifs at h <;> simp [written] at h <;>
      (cases h1 : w.err (k + 1) <;> simp [h1, written] at h; subst h; exact ⟨rfl, rfl⟩)
  | some e =>
    by_cases hnf : IsNotFound e = true
    · simp only [EnsureEndpoints, hk, hnf, if_true] at h
      split_ifs at h <;> simp [written] at h <;>
        (cases h1 : w.err (k + 1) <;> simp [h1, written] at h; subst h; exact ⟨rfl, rfl⟩)
    · simp [EnsureEndpoints, hk, hnf, written] at h

/-- Claim C4, the equality gate of `EnsureEndpoints`: when the fetch (request
`k`) succeeds with an object of non-empty version, then (1) if its subsets and
labels are semantically deep-equal to the desired ones, the fetch is the only
request of the run (no create, no update) and the result is nil; (2) in
particular, for a reflexive `DeepEqual`, this is so when the fetched object
holds the subsets and labels that an earlier run for the same desired object
wrote: the second reconciliation writes nothing. -/
theorem EnsureEndpoints_equality_gate (x : Ext) (w : World) (ep : Endpoints) (k : Nat)
    (hget : w.err k = none) (hver : (w.endpoints k).ResourceVersion ≠ "") :
    (x.deepEqualSubsets (w.endpoints k).Subsets ep.Subsets = true →
      x.deepEqualLabels (w.endpoints k).Labels ep.Labels = true →
      EnsureEndpoints x w ep k
        = (none, [Event.request (Call.getEndpoints ep.Namespace ep.Name) none]))
    ∧ ((∀ s, x.deepEqualSubsets s s = true) → (∀ l, x.deepEqualLabels l l = true) →
      ∀ (j : Nat) (obj : Endpoints), obj ∈ (EnsureEndpoints x w ep j).2.filterMap written →
        (w.endpoints k).Subsets = obj.Subsets → (w.endpoints k).Labels = obj.Labels →
        EnsureEndpoints x w ep k
          = (none, [Event.request (Call.getEndpoints ep.Namespace ep.Name) none])) := by
  refine ⟨EnsureEndpoints_gate x w ep k hget hver, ?_⟩
  intro hs hl j obj hobj h1 h2
  obtain ⟨e1, e2⟩ := EnsureEndpoints_written x w ep j obj hobj
  apply EnsureEndpoints_gate x w ep k hget hver
  · rw [h1, e1]; exact hs _
  · rw [h2, e2]; exact hl _

theorem EnsureEndpoints_equality_gate_witness :
    EnsureEndpoints ext gateWorld webEndpoints 0
      = (none, [Event.request (Call.getEndpoints "t" "web") none]) :=
  (EnsureEndpoints_equality_gate ext gateWorld webEndpoints 0 rfl (by decide)).1
    (by decide) (by decide)

/-- Claim C5, the reconcile of an absent service: when the fetch (request `k`)
fails with NotFound, `EnsureService` issues after it exactly one request, the
create of the desired object, and returns nil whatever that create returns:
success, AlreadyExists or another error. -/
theorem EnsureService_absent (w : World) (new : Service) (k : Nat) (e : Err)
    (hget : w.err k = some e) (hnf : IsNotFound e = true) :
    EnsureService w new k
      = (none, [Event.request (Call.getService new.Namespace new.Name) (some e),
                Event.request (Call.createService new.Namespace new) (w.err (k + 1))]) := by
  simp [EnsureService, ensureService, hget, hnf]

theorem EnsureService_absent_witness :
    EnsureService raceWorld web 0
      = (none, [Event.request (Call.getService "t" "web") (some notFound),
                Event.request (Call.createService "t" web) (some alreadyExists)]) :=
  EnsureService_absent raceWorld web 0 notFound rfl rfl

/-! ## `ApplyOne` -/

/-- Claim C8 fails on the code: when the namespace fetch fails with NotFound
and the create that follows fails with AlreadyExists, `ApplyOne` stops after
these two requests and returns the error "error checking namespace". -/
theorem ApplyOne_namespace_race :
    ApplyOne ext raceWorld plainApp
      = (some (Errorf "error checking namespace: " alreadyExists),
          [Event.request (Call.getNamespace "t") (some notFound),
           Event.request (Call.createNamespace plainApp.tenant) (some alreadyExists)]) := by
  rfl

/-- Claim C9, `ApplyOne` reports an error only for the namespace step: when
the namespace fetch (request `0`) succeeds, `ApplyOne` returns nil, whatever
the later requests return. -/
theorem ApplyOne_nil_after_namespace (x : Ext) (w : World) (app : AppService)
    (h : w.err 0 = none) : (ApplyOne x w app).1 = none := by
  simp [ApplyOne, ApplyOne.namespaceStep, h]

theorem ApplyOne_nil_after_namespace_witness :
    laterFailWorld.err 0 = none ∧ (ApplyOne ext laterFailWorld sweepApp).1 = none :=
  ⟨rfl, ApplyOne_nil_after_namespace ext laterFailWorld sweepApp rfl⟩

theorem opening_persistUpdate_loop (w : World) (service : Service) (fuel : Nat) :
    ∀ (k : Nat) (err0 : Option Err),
      (persistUpdate.loop w service fuel k err0).2.filterMap opening = [] := by
  induction fuel with
  | zero => intro k err0; rfl
  | succ fuel ih =>
    intro k err0
    rw [persistUpdate.loop]
    cases hk : w.err k with
    | none => simp [opening]
    | some e =>
      by_cases hnf : IsNotFound e = true
      · simp [hnf, opening]
      · by_cases hc : IsConflict e = true
        · simp [hnf, hc, opening]
        · simp [hnf, hc, opening, ih]

theorem opening_ensureService (w : World) (new : Service) (k : Nat) :
    (ensureService w new k).2.filterMap opening = [Call.getService new.Namespace new.Name] := by
  unfold ensureService
  cases hk : w.err k with
  | none => simp [opening, persistUpdate, opening_persistUpdate_loop]
  | some e =>
    by_cases hnf : IsNotFound e = true <;> simp [hnf, opening]

theorem opening_ensureSecret (w : World) (secret : Secret) (k : Nat) :
    (ensureSecret w secret k).filterMap opening = [Call.updateSecret secret.Namespace secret] := by
  unfold ensureSecret
  cases hk : w.err k with
  | none => simp [opening]
  | some e =>
    by_cases hnf : IsNotFound e = true <;> simp [hnf, opening]

theorem opening_ensureIngress (w : World) (ingress : Ingress) (k : Nat) :
    (ensureIngress w ingress k).filterMap opening
      = [Call.updateIngress ingress.Namespace ingress] := by
  unfold ensureIngress
  cases hk : w.err k with
  | none => simp [opening]
  | some e =>
    by_cases hnf : IsNotFound e = true <;> simp [hnf, opening]

theorem opening_EnsureEndpoints (x : Ext) (w : World) (ep : Endpoints) (k : Nat) :
    (EnsureEndpoints x w ep k).2.filterMap opening = [Call.getEndpoints ep.Namespace ep.Name] := by
  cases hk : w.err k with
  | none =>
    simp only [EnsureEndpoints, hk]
    split_ifs <;> simp [opening]
  | some e =>
    by_cases hnf : IsNotFound e = true
    · simp only [EnsureEndpoints, hk, hnf, if_true]
      split_ifs <;> simp [opening]
    · simp [EnsureEndpoints, hk, hnf, opening]

theorem opening_forEach {α : Type} (f : α → Nat → Log) (c : α → Call)
    (h : ∀ a k, (f a k).filterMap opening = [c a]) (xs : List α) :
    ∀ k, (forEach f xs k).filterMap opening = xs.map c := by
  induction xs with
  | nil => intro k; rfl
  | cons a xs ih => intro k; simp [forEach, h, ih]

theorem opening_forEach_nil {α : Type} (f : α → Nat → Log)
    (h : ∀ a k, (f a k).filterMap opening = []) (xs : List α) :
    ∀ k, (forEach f xs k).filterMap opening = [] := by
  induction xs with
  | nil => intro k; rfl
  | cons a xs ih => intro k; simp [forEach, h, ih]

theorem opening_namespaceStep (w : World) (app : AppService) :
    (ApplyOne.namespaceStep w app).2.filterMap opening = [] := by
  unfold ApplyOne.namespaceStep
  cases h0 : w.err 0 with
  | none => simp [opening]
  | some e =>
    by_cases hnf : IsNotFound e = true
    · cases h1 : w.err 1 with
      | none => simp [hnf, opening]
      | some e1 => by_cases hae : IsAlreadyExists e1 = true <;> simp [hnf, hae, opening]
    · simp [hnf, opening]

theorem opening_sweep (w : World) (app : AppService) (k : Nat) :
    (ApplyOne.sweep w app k).filterMap opening = [] := by
  simp [ApplyOne.sweep, opening_forEach_nil, opening]

theorem opening_full (x : Ext) (w : World) (app : AppService) (k : Nat) :
    (ApplyOne.full x w app k).filterMap opening
      = app.services.map (fun s => Call.getService s.Namespace s.Name)
        ++ app.secrets.map (fun s => Call.updateSecret s.Namespace s)
        ++ app.endpoints.map (fun e => Call.getEndpoints e.Namespace e.Name)
        ++ app.ingresses.map (fun i => Call.updateIngress i.Namespace i) := by
  simp only [ApplyOne.full, List.filterMap_append]
  rw [opening_forEach _ _ (fun a k => opening_ensureService w a k),
    opening_forEach _ _ (fun a k => opening_ensureSecret w a k),
    opening_forEach _ _ (fun a k => opening_EnsureEndpoints x w a k),
    opening_forEach _ _ (fun a k => opening_ensureIngress w a k)]

/-- Claim C10 as stated fails: the custom parameters of `paramsApp` name
neither a domain nor a TCP address and the namespace step succeeds, yet
`ApplyOne` asks the store for the namespace only; the desired service `web`
is not attempted. -/
theorem ApplyOne_full_counterexample :
    StrMap.get? paramsApp.CustomParams "domain" = none
    ∧ StrMap.get? paramsApp.CustomParams "tcp-address" = none
    ∧ (ApplyOne.namespaceStep okWorld paramsApp).1 = none
    ∧ (ApplyOne ext okWorld paramsApp).2 = [Event.request (Call.getNamespace "t") none]
    ∧ (ApplyOne ext okWorld paramsApp).2.filterMap opening
        ≠ paramsApp.services.map (fun s => Call.getService s.Namespace s.Name)
          ++ paramsApp.secrets.map (fun s => Call.updateSecret s.Namespace s)
          ++ paramsApp.endpoints.map (fun e => Call.getEndpoints e.Namespace e.Name)
          ++ paramsApp.ingresses.map (fun i => Call.updateIngress i.Namespace i) := by
  refine ⟨by decide, by decide, rfl, rfl, by decide⟩

/-- Claim C10 as amended: when the custom parameters are nil and the namespace
step succeeds, the reconciliations that `ApplyOne` opens are, in this order,
one for every desired service, one for every desired secret, one for every
desired endpoints object and one for every desired ingress. -/
theorem ApplyOne_full_when_params_nil (x : Ext) (w : World) (app : AppService)
    (hp : app.CustomParams = none) (hns : (ApplyOne.namespaceStep w app).1 = none) :
    (ApplyOne x w app).2.filterMap opening
      = app.services.map (fun s => Call.getService s.Namespace s.Name)
        ++ app.secrets.map (fun s => Call.updateSecret s.Namespace s)
        ++ app.endpoints.map (fun e => Call.getEndpoints e.Namespace e.Name)
        ++ app.ingresses.map (fun i => Call.updateIngress i.Namespace i) := by
  have hlog := opening_namespaceStep w app
  unfold ApplyOne
  cases hstep : ApplyOne.namespaceStep w app with
  | mk r log =>
    rw [hstep] at hns hlog
    simp only at hns hlog
    subst hns
    simp only [List.filterMap_append, hlog, opening_sweep, List.nil_append, List.append_nil]
    simp only [ApplyOne.reconcile, hp]
    exact opening_full x w app _

theorem ApplyOne_full_when_params_nil_witness :
    (ApplyOne ext okWorld plainApp).2.filterMap opening = [Call.getService "t" "web"] :=
  ApplyOne_full_when_params_nil ext okWorld plainApp rfl rfl

/-! ## Go maps -/

theorem GoMap.lookup_mem {α : Type} (m : GoMap α) (key : String) (o : α)
    (h : List.lookup key m = some o) : (key, o) ∈ m := by
  induction m with
  | nil => simp at h
  | cons kv m ih =>
    obtain ⟨k1, v1⟩ := kv
    by_cases hk : key = k1
    · subst hk
      simp [List.lookup] at h
      simp [h]
    · have : (key == k1) = false := by simpa using hk
      simp [List.lookup, this] at h
      exact List.mem_cons_of_mem _ (ih h)

theorem GoMap.lookup_none {α : Type} (m : GoMap α) (key : String)
    (h : List.lookup key m = none) : ∀ kv ∈ m, kv.1 ≠ key := by
  induction m with
  | nil => simp
  | cons kv m ih =>
    obtain ⟨k1, v1⟩ := kv
    by_cases hk : key = k1
    · subst hk
      simp [List.lookup] at h
    · have : (key == k1) = false := by simpa using hk
      simp only [List.lookup, this] at h
      intro kv hkv
      rcases List.mem_cons.mp hkv with rfl | hmem
      · exact fun h' => hk h'.symm
      · exact ih h kv hmem

theorem GoMap.lookup_delete {α : Type} (m : GoMap α) (key gone : String) (h : key ≠ gone) :
    List.lookup key (GoMap.delete m gone) = List.lookup key m := by
  induction m with
  | nil => rfl
  | cons kv m ih =>
    obtain ⟨k1, v1⟩ := kv
    unfold GoMap.delete at ih ⊢
    by_cases hg : k1 = gone
    · subst hg
      have : (key == k1) = false := by simpa using h
      simp [List.lookup, this, ih]
    · have hne : (k1 != gone) = true := by simpa using hg
      simp only [List.filter_cons, hne, if_true, List.lookup]
      rw [ih]

theorem GoMap.insert_fresh {α : Type} (m : GoMap α) (key : String) (v : α)
    (h : ∀ kv ∈ m, kv.1 ≠ key) : GoMap.insert m key v = m ++ [(key, v)] := by
  unfold GoMap.insert
  have : m.any (fun kv => kv.1 == key) = false := by
    rw [List.any_eq_false]
    intro kv hkv
    simpa using h kv hkv
  simp [this]


/-! ## `UpgradeIngress`, `UpgradeSecrets`: the diff -/

theorem upgrade.foldl_insert_fresh {α : Type} (K : Kind α) (old : List α) :
    ∀ m : GoMap α, (∀ o ∈ old, ∀ kv ∈ m, kv.1 ≠ K.name o) → (old.map K.name).Nodup →
      old.foldl (fun m item => m.insert (K.name item) item) m
        = m ++ old.map (fun o => (K.name o, o)) := by
  induction old with
  | nil => intro m _ _; simp
  | cons o old ih =>
    intro m hfresh hnd
    rw [List.map_cons, List.nodup_cons] at hnd
    rw [List.foldl_cons, GoMap.insert_fresh m _ _ (hfresh o (List.mem_cons_self _ _)), ih]
    · simp
    · intro o2 ho2 kv hkv
      rcases List.mem_append.mp hkv with hm | hm
      · exact hfresh o2 (List.mem_cons_of_mem _ ho2) kv hm
      · simp only [List.mem_singleton] at hm
        subst hm
        intro heq
        have heq2 : K.name o = K.name o2 := heq
        exact hnd.1 (heq2 ▸ List.mem_map_of_mem K.name ho2)
    · exact hnd.2

theorem upgrade.oldMap_nodup {α : Type} (K : Kind α) (old : List α)
    (h : (old.map K.name).Nodup) :
    upgrade.oldMap K old = old.map (fun o => (K.name o, o)) := by
  have := upgrade.foldl_insert_fresh K old [] (by simp) h
  simpa [upgrade.oldMap] using this

theorem upgrade.deleteLoop_ok {α : Type} (K : Kind α) (u : Upgrade α)
    (hw : ∀ k, u.w.err k = none) (entries : List (String × α)) :
    ∀ k, (upgrade.deleteLoop K u entries k).1 = none
      ∧ requests (upgrade.deleteLoop K u entries k).2
          = entries.map (fun kv => K.delete (K.ns kv.2) (K.name kv.2)) := by
  induction entries with
  | nil => intro k; simp [upgrade.deleteLoop, requests]
  | cons kv entries ih =>
    intro k
    obtain ⟨key, ing⟩ := kv
    simp [upgrade.deleteLoop, hw, requests, ih]

theorem upgrade.newLoop_ok {α : Type} (K : Kind α) (u : Upgrade α)
    (hset : ∀ a c r, K.set a ≠ Event.request c r)
    (hw : ∀ k, u.w.err k = none) (new : List α) :
    ∀ (m : GoMap α) (k : Nat), (new.map K.name).Nodup → (∀ kv ∈ m, kv.1 = K.name kv.2) →
      (upgrade.newLoop K u m new k).1 = none
      ∧ requests (upgrade.newLoop K u m new k).2
          = new.map (upgrade.classify K m)
            ++ (u.range (m.filter (fun kv => decide (kv.1 ∉ new.map K.name)))).map
                (fun kv => K.delete (K.ns kv.2) (K.name kv.2)) := by
  induction new with
  | nil =>
    intro m k _ _
    simp [upgrade.newLoop, upgrade.deleteLoop_ok K u hw]
  | cons n rest ih =>
    intro m k hnd hkey
    rw [List.map_cons, List.nodup_cons] at hnd
    rw [upgrade.newLoop]
    cases hl : List.lookup (K.name n) m with
    | some o =>
      have hname : K.name o = K.name n := (hkey _ (GoMap.lookup_mem m _ _ hl)).symm
      have hkey2 : ∀ kv ∈ GoMap.delete m (K.name o), kv.1 = K.name kv.2 :=
        fun kv hkv => hkey kv (List.mem_of_mem_filter hkv)
      obtain ⟨h1, h2⟩ := ih (GoMap.delete m (K.name o)) (k + 1) hnd.2 hkey2
      have hcl : rest.map (upgrade.classify K (GoMap.delete m (K.name o)))
          = rest.map (upgrade.classify K m) := by
        apply List.map_congr_left
        intro n2 hn2
        have hne : K.name n2 ≠ K.name o := by
          intro heq
          exact hnd.1 (hname ▸ heq ▸ List.mem_map_of_mem K.name hn2)
        simp [upgrade.classify, GoMap.lookup_delete m _ _ hne]
      have hfl : (GoMap.delete m (K.name o)).filter (fun kv => decide (kv.1 ∉ rest.map K.name))
          = m.filter (fun kv => decide (kv.1 ∉ (n :: rest).map K.name)) := by
        unfold GoMap.delete
        rw [List.filter_filter]
        apply List.filter_congr
        intro kv _
        rw [hname]
        by_cases hkv : kv.1 = K.name n
        · simp [hkv]
        · have hb : (kv.1 != K.name n) = true := by simpa using hkv
          simp [hb, hkv]
      simp only [hw, h1, true_and]
      simp only [requests, requests_set K hset, h2, hcl, hfl, List.map_cons, upgrade.classify, hl,
        List.cons_append]
    | none =>
      obtain ⟨h1, h2⟩ := ih m (k + 1) hnd.2 hkey
      have hfl : m.filter (fun kv => decide (kv.1 ∉ rest.map K.name))
          = m.filter (fun kv => decide (kv.1 ∉ (n :: rest).map K.name)) := by
        apply List.filter_congr
        intro kv hkv
        have := GoMap.lookup_none m _ hl kv hkv
        simp [this]
      simp only [hw, h1, true_and]
      simp only [requests, requests_set K hset, h2, hfl, List.map_cons, upgrade.classify, hl,
        List.cons_append]


theorem GoMap.lookup_map {α : Type} (name : α → String) (old : List α) (key : String) :
    List.lookup key (old.map (fun o => (name o, o))) = old.find? (fun o => name o == key) := by
  induction old with
  | nil => rfl
  | cons o old ih =>
    by_cases hk : name o = key
    · subst hk
      simp [List.lookup, List.find?]
    · have h1 : (key == name o) = false := by simpa using fun h => hk h.symm
      have h2 : (name o == key) = false := by simpa using hk
      simp only [List.map_cons, List.lookup, h1, List.find?, h2, ih]

theorem upgrade_diff {α : Type} (K : Kind α) (u : Upgrade α)
    (hset : ∀ a c r, K.set a ≠ Event.request c r) (old new : List α)
    (hold : (old.map K.name).Nodup) (hnew : (new.map K.name).Nodup)
    (hw : ∀ k, u.w.err k = none) (hrange : ∀ m, (u.range m).Perm m) :
    (upgrade K u old new).1 = none
    ∧ ∃ gone : List α,
        gone.Perm (old.filter (fun o => decide (K.name o ∉ new.map K.name)))
        ∧ requests (upgrade K u old new).2
            = new.map (fun n =>
                match old.find? (fun o => K.name o == K.name n) with
                | some o =>
                  K.update (K.ns (K.setIdentity n (K.uid o) (K.rv o)))
                    (K.setIdentity n (K.uid o) (K.rv o))
                | none => K.create (K.ns n) n)
              ++ gone.map (fun o => K.delete (K.ns o) (K.name o)) := by
  have hkey : ∀ kv ∈ old.map (fun o => (K.name o, o)), kv.1 = K.name kv.2 := by
    intro kv hkv
    obtain ⟨o, _, rfl⟩ := List.mem_map.mp hkv
    rfl
  obtain ⟨h1, h2⟩ := upgrade.newLoop_ok K u hset hw new (old.map (fun o => (K.name o, o))) 0
    hnew hkey
  rw [upgrade, upgrade.oldMap_nodup K old hold]
  refine ⟨h1, (u.range ((old.map (fun o => (K.name o, o))).filter
      (fun kv => decide (kv.1 ∉ new.map K.name)))).map Prod.snd, ?_, ?_⟩
  · have hp := (hrange ((old.map (fun o => (K.name o, o))).filter
      (fun kv => decide (kv.1 ∉ new.map K.name)))).map Prod.snd
    refine hp.trans (List.Perm.of_eq ?_)
    rw [List.filter_map, List.map_map]
    simp [Function.comp_def]
  · rw [h2, List.map_map]
    congr 1
    apply List.map_congr_left
    intro n _
    simp only [upgrade.classify, GoMap.lookup_map]


/-! ## `UpgradeIngress`, `UpgradeSecrets`: the abort policy -/

theorem AbortPolicy.nil (h : String → Err → Option Err) : AbortPolicy h (none, []) := by
  constructor
  · intro i c err hi; simp at hi
  · intro e he; simp at he

theorem AbortPolicy.stop (h : String → Err → Option Err) (c : Call) (msg : String)
    (err e : Err) (he : h msg err = some e) :
    AbortPolicy h (some e, [Event.request c (some err), Event.handleErr msg err]) := by
  constructor
  · intro i c2 err2 hi
    match i with
    | 0 =>
      simp at hi
      obtain ⟨_, rfl⟩ := hi
      refine ⟨msg, by simp, ?_⟩
      intro e2 he2
      rw [he] at he2
      simp [he2]
    | 1 => simp at hi
    | i + 2 => simp at hi
  · intro e2 he2
    simp at he2
    subst he2
    exact ⟨0, c, err, msg, by simp, by simp, he⟩

theorem AbortPolicy.cons (h : String → Err → Option Err) (r : Option Err × Log) (x : Event)
    (hx : ∀ c err, x ≠ Event.request c (some err)) (hr : AbortPolicy h r) :
    AbortPolicy h (r.1, x :: r.2) := by
  obtain ⟨p1, p2⟩ := hr
  constructor
  · intro i c err hi
    match i with
    | 0 =>
      simp at hi
      exact absurd hi (hx c err)
    | i + 1 =>
      simp only [List.getElem?_cons_succ] at hi
      obtain ⟨msg, hm, hrest⟩ := p1 i c err hi
      refine ⟨msg, by simpa using hm, ?_⟩
      intro e he
      obtain ⟨h1, h2⟩ := hrest e he
      exact ⟨h1, by simp [h2]⟩
  · intro e he
    obtain ⟨i, c, err, msg, h1, h2, h3⟩ := p2 e he
    exact ⟨i + 1, c, err, msg, by simpa using h1, by simpa using h2, h3⟩

theorem AbortPolicy.skip (h : String → Err → Option Err) (r : Option Err × Log) (c : Call)
    (msg : String) (err : Err) (hnone : h msg err = none) (hr : AbortPolicy h r) :
    AbortPolicy h (r.1, Event.request c (some err) :: Event.handleErr msg err :: r.2) := by
  have h1 := AbortPolicy.cons h r (Event.handleErr msg err)
    (fun _ _ hh => Event.noConfusion hh) hr
  obtain ⟨p1, p2⟩ := h1
  constructor
  · intro i c2 err2 hi
    match i with
    | 0 =>
      simp at hi
      obtain ⟨_, rfl⟩ := hi
      refine ⟨msg, by simp, ?_⟩
      intro e he
      rw [hnone] at he
      simp at he
    | i + 1 =>
      simp only [List.getElem?_cons_succ] at hi
      obtain ⟨msg2, hm, hrest⟩ := p1 i c2 err2 hi
      refine ⟨msg2, by simpa using hm, ?_⟩
      intro e he
      obtain ⟨h1, h2⟩ := hrest e he
      refine ⟨h1, ?_⟩
      simp only [List.length_cons] at h2 ⊢
      omega
  · intro e he
    obtain ⟨i, c2, err2, msg2, h1, h2, h3⟩ := p2 e he
    exact ⟨i + 1, c2, err2, msg2, by simpa using h1, by simpa using h2, h3⟩

theorem upgrade.deleteLoop_abort {α : Type} (K : Kind α) (u : Upgrade α)
    (entries : List (String × α)) :
    ∀ k, AbortPolicy u.handleErr (upgrade.deleteLoop K u entries k) := by
  induction entries with
  | nil => intro k; exact AbortPolicy.nil _
  | cons kv entries ih =>
    intro k
    obtain ⟨key, ing⟩ := kv
    rw [upgrade.deleteLoop]
    cases hk : u.w.err k with
    | none =>
      exact AbortPolicy.cons _ _ _ (fun _ _ hh => by simp at hh) (ih (k + 1))
    | some e =>
      dsimp only
      cases hh : u.handleErr (u.sprintf K.deleteFormat ing e) e with
      | none => exact AbortPolicy.skip _ _ _ _ _ hh (ih (k + 1))
      | some abort => exact AbortPolicy.stop _ _ _ _ _ hh

theorem upgrade.newLoop_abort {α : Type} (K : Kind α) (u : Upgrade α)
    (hset : ∀ a c r, K.set a ≠ Event.request c r) (new : List α) :
    ∀ (m : GoMap α) (k : Nat), AbortPolicy u.handleErr (upgrade.newLoop K u m new k) := by
  induction new with
  | nil => intro m k; exact upgrade.deleteLoop_abort K u _ k
  | cons n rest ih =>
    intro m k
    rw [upgrade.newLoop]
    cases hl : List.lookup (K.name n) m with
    | some o =>
      cases hk : u.w.err k with
      | none =>
        exact AbortPolicy.cons _ (_, _ :: _) _ (fun _ _ hh => by simp at hh)
          (AbortPolicy.cons _ _ _ (fun c err => hset _ c (some err)) (ih _ (k + 1)))
      | some e =>
        dsimp only
        cases hh : u.handleErr (u.sprintf K.updateFormat (K.returned u.w k) e) e with
        | none => exact AbortPolicy.skip _ _ _ _ _ hh (ih _ (k + 1))
        | some abort => exact AbortPolicy.stop _ _ _ _ _ hh
    | none =>
      cases hk : u.w.err k with
      | none =>
        exact AbortPolicy.cons _ (_, _ :: _) _ (fun _ _ hh => by simp at hh)
          (AbortPolicy.cons _ _ _ (fun c err => hset _ c (some err)) (ih _ (k + 1)))
      | some e =>
        dsimp only
        cases hh : u.handleErr (u.sprintf K.createFormat (K.returned u.w k) e) e with
        | none => exact AbortPolicy.skip _ _ _ _ _ hh (ih _ (k + 1))
        | some abort => exact AbortPolicy.stop _ _ _ _ _ hh

/-- Claim C1, the keyed-list diff of `UpgradeIngress` and of `UpgradeSecrets`:
when the names are pairwise distinct within `old` and within `new`, every
request succeeds and `range` visits the entries of a map in some order, the
run returns nil and its requests are, for the entries of `new` in order, an
update carrying the UID and ResourceVersion of the old entry of the same name
when there is one and a create otherwise, followed by one delete for each entry
of `old` whose name does not occur in `new` (the list `gone`, in the order of
`range`), and nothing else. -/
theorem Upgrade_diff_correct :
    (∀ (u : Upgrade Ingress) (old new : List Ingress),
      (old.map (fun o => o.Name)).Nodup → (new.map (fun n => n.Name)).Nodup →
      (∀ k, u.w.err k = none) → (∀ m, (u.range m).Perm m) →
      (UpgradeIngress u old new).1 = none
      ∧ ∃ gone : List Ingress,
          gone.Perm (old.filter (fun o => decide (o.Name ∉ new.map (fun n => n.Name))))
          ∧ requests (UpgradeIngress u old new).2
              = new.map (fun n =>
                  match old.find? (fun o => o.Name == n.Name) with
                  | some o =>
                    Call.updateIngress n.Namespace
                      { n with UID := o.UID, ResourceVersion := o.ResourceVersion }
                  | none => Call.createIngress n.Namespace n)
                ++ gone.map (fun o => Call.deleteIngress o.Namespace o.Name))
    ∧ (∀ (u : Upgrade Secret) (old new : List Secret),
      (old.map (fun o => o.Name)).Nodup → (new.map (fun n => n.Name)).Nodup →
      (∀ k, u.w.err k = none) → (∀ m, (u.range m).Perm m) →
      (UpgradeSecrets u old new).1 = none
      ∧ ∃ gone : List Secret,
          gone.Perm (old.filter (fun o => decide (o.Name ∉ new.map (fun n => n.Name))))
          ∧ requests (UpgradeSecrets u old new).2
              = new.map (fun n =>
                  match old.find? (fun o => o.Name == n.Name) with
                  | some o =>
                    Call.updateSecret n.Namespace
                      { n with UID := o.UID, ResourceVersion := o.ResourceVersion }
                  | none => Call.createSecret n.Namespace n)
                ++ gone.map (fun o => Call.deleteSecret o.Namespace o.Name)) := by
  constructor
  · intro u old new hold hnew hw hrange
    obtain ⟨h1, gone, hp, hr⟩ := upgrade_diff Kind.ingress u
      (fun _ _ _ h => Event.noConfusion h) old new hold hnew hw hrange
    refine ⟨h1, gone, hp, ?_⟩
    rw [UpgradeIngress, hr]
    congr 1
    apply List.map_congr_left
    intro n _
    simp only [Kind.ingress]
    cases old.find? (fun o => o.Name == n.Name) <;> rfl
  · intro u old new hold hnew hw hrange
    obtain ⟨h1, gone, hp, hr⟩ := upgrade_diff Kind.secret u
      (fun _ _ _ h => Event.noConfusion h) old new hold hnew hw hrange
    refine ⟨h1, gone, hp, ?_⟩
    rw [UpgradeSecrets, hr]
    congr 1
    apply List.map_congr_left
    intro n _
    simp only [Kind.secret]
    cases old.find? (fun o => o.Name == n.Name) <;> rfl

theorem Upgrade_diff_correct_witness :
    (UpgradeIngress okRun [ingA, ingB] [newB, newC]).1 = none
    ∧ requests (UpgradeIngress okRun [ingA, ingB] [newB, newC]).2
        = [Call.updateIngress "t" { newB with UID := "uid-b", ResourceVersion := "2" },
           Call.createIngress "t" newC,
           Call.deleteIngress "t" "a"] := by
  obtain ⟨h1, gone, hp, hr⟩ := Upgrade_diff_correct.1 okRun [ingA, ingB] [newB, newC]
    (by decide) (by decide) (fun _ => rfl) (fun _ => List.Perm.refl _)
  refine ⟨h1, ?_⟩
  have hgone : gone = [ingA] := List.perm_singleton.mp hp
  rw [hr, hgone]
  rfl

/-- Claim C6 fails on the code: the update of the still desired entry `a`
fails, `handleErr` answers nil, and the run goes on to delete `a` from the
store; so does the run on secrets. -/
theorem Upgrade_deletes_entry_whose_update_failed :
    UpgradeIngress skipRun [ingA] [newA]
      = (none,
          [Event.request
              (Call.updateIngress "t" { newA with UID := "uid-a", ResourceVersion := "1" })
              (some boom),
           Event.handleErr "error updating ingress: %+v: err: %vboom" boom,
           Event.request (Call.deleteIngress "t" "a") none])
    ∧ UpgradeSecrets skipSecretRun [secA] [newSecA]
      = (none,
          [Event.request
              (Call.updateSecret "t" { newSecA with UID := "uid-a", ResourceVersion := "1" })
              (some boom),
           Event.handleErr "error updating secret: %+v: err: %vboom" boom,
           Event.request (Call.deleteSecret "t" "a") none]) := by
  constructor <;> rfl

/-- Claim C7, the abort policy of `UpgradeIngress` and of `UpgradeSecrets`:
for every store, every `handleErr`, every `old` and `new`, each failed create,
update or delete is handed at once to `handleErr`; when `handleErr` answers
with a non-nil error the run returns exactly that error and the log ends
there, so that no request follows the failed one; and the run returns a non-nil
error only when `handleErr` answered with it. -/
theorem Upgrade_abort_policy :
    (∀ (u : Upgrade Ingress) (old new : List Ingress),
      AbortPolicy u.handleErr (UpgradeIngress u old new))
    ∧ (∀ (u : Upgrade Secret) (old new : List Secret),
      AbortPolicy u.handleErr (UpgradeSecrets u old new)) :=
  ⟨fun u old new =>
      upgrade.newLoop_abort Kind.ingress u (fun _ _ _ h => Event.noConfusion h) new
        (upgrade.oldMap Kind.ingress old) 0,
    fun u old new =>
      upgrade.newLoop_abort Kind.secret u (fun _ _ _ h => Event.noConfusion h) new
        (upgrade.oldMap Kind.secret old) 0⟩

theorem Upgrade_abort_policy_witness :
    (UpgradeIngress abortRun [ingA, ingB] [newA, newC]).1 = some boom
    ∧ (UpgradeIngress abortRun [ingA, ingB] [newA, newC]).2.length = 2 := by
  obtain ⟨_, _, hstop⟩ := (Upgrade_abort_policy.1 abortRun [ingA, ingB] [newA, newC]).1 0
    (Call.updateIngress "t" { newA with UID := "uid-a", ResourceVersion := "1" }) boom rfl
  exact hstop boom rfl

end Rainbond
